import Mathlib

/-!
Verification of the streaming fold-decode ETL program (`src/src/main.rs`).

Numeric model: the source computes with `f64` sums and `u64` counts; we
embed them as exact rationals (`ℚ`) and naturals (`ℕ`), the idealized
arithmetic the specification's contracts are written in.  Machine-float
rounding and the unreachable `u64` overflow (which would need more than
2^64 decoded leaves in a single array) are outside this model.
-/

/-- Structure `AccumulatedRate` (main.rs lines 22-26): the fold accumulator with a
running `rate` sum (`f64`, modelled as `ℚ`) and a `count` (`u64`,
modelled as `ℕ`). -/
structure AccumulatedRate where
  rate : ℚ
  count : ℕ
  deriving DecidableEq

/-- The `Default` impl derived for `AccumulatedRate`: `{rate: 0.0, count: 0}`
(the spec's `zero()`). -/
def AccumulatedRate.zero : AccumulatedRate := ⟨0, 0⟩

/-- Structure `NegotiatedPrice` (main.rs lines 66-68): a leaf observation carrying one
`negotiated_rate` number. -/
structure NegotiatedPrice where
  negotiated_rate : ℚ
  deriving DecidableEq

/-- Structure `NegotiatedRate` (main.rs lines 60-64): one outer-array group whose
`negotiated_prices` array has already been folded into an accumulator by
the nested `serdapt::Fold`. -/
structure NegotiatedRate where
  negotiated_prices : AccumulatedRate
  deriving DecidableEq

/-- The impl `Add<NegotiatedPrice> for AccumulatedRate` (main.rs lines 49-58):
absorb one leaf observation into the accumulator. -/
def AccumulatedRate.addPrice (self : AccumulatedRate) (rhs : NegotiatedPrice) :
    AccumulatedRate :=
  ⟨self.rate + rhs.negotiated_rate, self.count + 1⟩

/-- The impl `Add<NegotiatedRate> for AccumulatedRate` (main.rs lines 38-47):
absorb an already-folded sub-accumulator into the accumulator. -/
def AccumulatedRate.addRate (self : AccumulatedRate) (rhs : NegotiatedRate) :
    AccumulatedRate :=
  ⟨self.rate + rhs.negotiated_prices.rate, self.count + rhs.negotiated_prices.count⟩

/-- The impl `From<AccumulatedRate> for Option<f64>` (main.rs lines 28-36), the
spec's `finish`: `None` when the count is zero, otherwise the mean. -/
def AccumulatedRate.finish (value : AccumulatedRate) : Option ℚ :=
  if value.count = 0 then none else some (value.rate / (value.count : ℚ))

/-- Structure `Record` (main.rs lines 11-20): the flat record decoded from one input
line, its `avg_rate` produced by the fold-decode mechanism. -/
structure Record where
  name : String
  billing_code : String
  avg_rate : Option ℚ
  deriving DecidableEq

/-- The filter predicate applied in `process` (main.rs line 107):
`r.avg_rate.is_some_and(|r| r <= 30.0)`. -/
def emits (r : Record) : Bool :=
  match r.avg_rate with
  | some v => decide (v ≤ 30)
  | none => false

/-- The loop body of `process` (main.rs lines 104-118), folded over the
enumerated decode results produced by `records` (main.rs lines 120-128):
`i` is the 0-based index of the next line; a decode failure on line `i`
stops the run with the 1-based line number `i + 1` and the underlying
cause; a decoded record is emitted when the filter accepts it. -/
def processFrom (i : ℕ) : List (Except String Record) → Except (ℕ × String) (List Record)
  | [] => .ok []
  | .error e :: _ => .error (i + 1, e)
  | .ok r :: rest =>
    match processFrom (i + 1) rest with
    | .error err => .error err
    | .ok rows => .ok (if emits r then r :: rows else rows)

/-- Function `process` (main.rs lines 104-118) over the sequence of per-line decode
results: either the surviving records in order, or the first failure with
its 1-based line number. -/
def process (rs : List (Except String Record)) : Except (ℕ × String) (List Record) :=
  processFrom 0 rs

/-- Modelled from the spec: the three JSON shapes a nested array field may
take on the wire (spec §6: "Absent, empty, or `null`
`negotiated_prices`/`negotiated_rates` arrays are valid"). The decoding of
these shapes lives in the external `serde`/`serdapt` crates, not under
`src/`. -/
inductive JsonArr (α : Type) where
  | absent : JsonArr α
  | null : JsonArr α
  | arr : List α → JsonArr α
  deriving DecidableEq

/-- Modelled from the spec (§6): the elements an array-shaped field
contributes; absent and `null` contribute none. -/
def JsonArr.elems : JsonArr α → List α
  | .absent => []
  | .null => []
  | .arr xs => xs

/-- The wire shape of one element of `negotiated_rates`: an object with a
`negotiated_prices` array of leaf observations (spec §6 input format). -/
structure RawGroup where
  negotiated_prices : JsonArr NegotiatedPrice
  deriving DecidableEq

/-- The wire shape of one input line (spec §6 input format). -/
structure RawRecord where
  name : String
  billing_code : String
  negotiated_rates : JsonArr RawGroup
  deriving DecidableEq

/-- The leaf observations of one group. -/
def RawGroup.leaves (g : RawGroup) : List NegotiatedPrice :=
  g.negotiated_prices.elems

/-- Modelled from the spec: `serdapt::Fold<NegotiatedPrice, AccumulatedRate>`
(not under `src/`) decodes `negotiated_prices` by left-folding each decoded
leaf into the accumulator in input order, starting from the `Default`
value (spec §4.2); the combining step is `Add<NegotiatedPrice>` from
`src`. -/
def foldPrices (acc : AccumulatedRate) (ps : List NegotiatedPrice) : AccumulatedRate :=
  ps.foldl AccumulatedRate.addPrice acc

/-- One decoded `NegotiatedRate` group: its `negotiated_prices` field is the
fold of its leaves from `zero` (main.rs lines 60-64 with the spec-modelled
`serdapt::Fold` semantics). -/
def decodeGroup (g : RawGroup) : NegotiatedRate :=
  ⟨foldPrices AccumulatedRate.zero g.leaves⟩

/-- Modelled from the spec: the outer
`serdapt::Fold<NegotiatedRate, AccumulatedRate>` left-folds each decoded
group into the accumulator in input order (spec §4.2); the combining step
is `Add<NegotiatedRate>` from `src`. -/
def foldRates (acc : AccumulatedRate) (gs : List RawGroup) : AccumulatedRate :=
  gs.foldl (fun a g => a.addRate (decodeGroup g)) acc

/-- The `avg_rate` field decode (main.rs lines 15-19):
`serdapt::From::<AccumulatedRate, serdapt::Fold<..>>` folds the
`negotiated_rates` array from `zero` and converts the final accumulator
through `finish`. -/
def decodeAvg (nr : JsonArr RawGroup) : Option ℚ :=
  (foldRates AccumulatedRate.zero nr.elems).finish

/-- Decoding one input line into a `Record` (main.rs lines 11-20 plus the
spec-modelled wire shapes): plain field decode for `name` and
`billing_code`, fold-decode for `avg_rate`. -/
def decodeRecord (r : RawRecord) : Record :=
  ⟨r.name, r.billing_code, decodeAvg r.negotiated_rates⟩

/-- The leaf rates of a group list, flattened across groups in input
order. -/
def flatRates (gs : List RawGroup) : List ℚ :=
  ((gs.map RawGroup.leaves).flatten).map NegotiatedPrice.negotiated_rate

/-! ### Helper lemmas about the folds -/

lemma foldPrices_eq (acc : AccumulatedRate) (ps : List NegotiatedPrice) :
    foldPrices acc ps =
      ⟨acc.rate + (ps.map NegotiatedPrice.negotiated_rate).sum, acc.count + ps.length⟩ := by
  induction ps generalizing acc with
  | nil => simp [foldPrices]
  | cons p ps ih =>
    simp only [foldPrices, List.foldl_cons] at ih ⊢
    rw [ih]
    simp [AccumulatedRate.addPrice, add_assoc, add_comm, add_left_comm, Nat.add_comm,
      Nat.add_assoc, Nat.add_left_comm]

lemma foldRates_eq (acc : AccumulatedRate) (gs : List RawGroup) :
    foldRates acc gs = ⟨acc.rate + (flatRates gs).sum, acc.count + (flatRates gs).length⟩ := by
  induction gs generalizing acc with
  | nil => simp [foldRates, flatRates]
  | cons g gs ih =>
    simp only [foldRates, List.foldl_cons] at ih ⊢
    rw [ih]
    simp [flatRates, AccumulatedRate.addRate, decodeGroup, foldPrices_eq,
      AccumulatedRate.zero, add_assoc, Nat.add_assoc]

/-! ### Claim theorems -/

/-- C1: for every accumulator, the conversion `finish` returns `none` when
the accumulator's count is 0, and otherwise returns the sum divided by the
count. -/
theorem c1_finish_spec (acc : AccumulatedRate) :
    (acc.finish = none ↔ acc.count = 0) ∧
    (acc.count ≠ 0 → acc.finish = some (acc.rate / (acc.count : ℚ))) := by
  constructor
  · constructor
    · intro h
      by_contra hc
      simp [AccumulatedRate.finish, hc] at h
    · intro h
      simp [AccumulatedRate.finish, h]
  · intro h
    simp [AccumulatedRate.finish, h]

/-- C1 witness: a concrete non-empty accumulator yields its mean. -/
theorem c1_finish_spec_witness :
    (⟨10, 2⟩ : AccumulatedRate).finish = some ((10 : ℚ) / ((2 : ℕ) : ℚ)) :=
  (c1_finish_spec ⟨10, 2⟩).2 (by decide)

/-- C3: absorbing a leaf adds the leaf's rate to the sum and 1 to the count;
absorbing a sub-accumulator adds both fields pairwise. -/
theorem c3_absorb_spec :
    (∀ (acc : AccumulatedRate) (leaf : NegotiatedPrice),
        acc.addPrice leaf = ⟨acc.rate + leaf.negotiated_rate, acc.count + 1⟩) ∧
    (∀ (acc g : AccumulatedRate),
        acc.addRate ⟨g⟩ = ⟨acc.rate + g.rate, acc.count + g.count⟩) :=
  ⟨fun _ _ => rfl, fun _ _ => rfl⟩

/-- C10: the conversion to an optional average is total and never divides by
zero: whenever it produces a value, the count (the divisor) is non-zero and
the value solves `v * count = rate`; when the count is zero it takes the
`none` branch instead. -/
theorem c10_no_division_by_zero (acc : AccumulatedRate) :
    (acc.finish.isSome ↔ acc.count ≠ 0) ∧
    (∀ v, acc.finish = some v → ((acc.count : ℚ) ≠ 0 ∧ v * (acc.count : ℚ) = acc.rate)) := by
  constructor
  · by_cases h : acc.count = 0 <;> simp [AccumulatedRate.finish, h]
  · intro v hv
    by_cases h : acc.count = 0
    · simp [AccumulatedRate.finish, h] at hv
    · have hq : ((acc.count : ℚ)) ≠ 0 := Nat.cast_ne_zero.mpr h
      refine ⟨hq, ?_⟩
      simp only [AccumulatedRate.finish, h, if_false, Option.some.injEq] at hv
      rw [← hv]
      field_simp

/-- C10 witness: at a concrete accumulator, the produced mean times the
count recovers the sum. -/
theorem c10_no_division_by_zero_witness :
    (((⟨10, 2⟩ : AccumulatedRate).count : ℚ) ≠ 0 ∧
      (5 : ℚ) * ((⟨10, 2⟩ : AccumulatedRate).count : ℚ) = (⟨10, 2⟩ : AccumulatedRate).rate) :=
  (c10_no_division_by_zero ⟨10, 2⟩).2 5 (by norm_num [AccumulatedRate.finish])

lemma processFrom_first_error (i : ℕ) (pre : List Record) (e : String)
    (post : List (Except String Record)) :
    processFrom i (pre.map Except.ok ++ Except.error e :: post) =
      Except.error (i + pre.length + 1, e) := by
  induction pre generalizing i with
  | nil => rfl
  | cons r pre ih =>
    simp only [List.map_cons, List.cons_append, List.length_cons, processFrom, List.append_eq]
    rw [ih (i + 1)]
    have h : i + 1 + pre.length + 1 = i + (pre.length + 1) + 1 := by omega
    rw [h]

/-- C2: the pipeline emits a decoded record exactly when its `avg_rate` is
present and at most 30; a record whose `avg_rate` is exactly 30 is
emitted; a record whose `avg_rate` is absent is dropped silently, leaving
the rest of the run unchanged rather than raising an error. -/
theorem c2_filter (r : Record) :
    (emits r = true ↔ ∃ v, r.avg_rate = some v ∧ v ≤ 30) ∧
    (r.avg_rate = some 30 → emits r = true) ∧
    (r.avg_rate = none → ∀ (i : ℕ) (rest : List (Except String Record)),
        processFrom i (Except.ok r :: rest) = processFrom (i + 1) rest) := by
  refine ⟨?_, ?_, ?_⟩
  · cases hr : r.avg_rate with
    | none => simp [emits, hr]
    | some v => simp [emits, hr]
  · intro h
    simp [emits, h]
  · intro hn i rest
    have he : emits r = false := by simp [emits, hn]
    cases hpr : processFrom (i + 1) rest with
    | error err => simp [processFrom, hpr]
    | ok rows => simp [processFrom, hpr, he]

/-- C2 witness: a record with average exactly 30 passes the filter, and a
run whose only record has no average finishes without error or output. -/
theorem c2_filter_witness :
    emits ⟨"a", "1", some 30⟩ = true ∧
      processFrom 0 [Except.ok ⟨"b", "2", none⟩] = Except.ok [] :=
  ⟨(c2_filter ⟨"a", "1", some 30⟩).2.1 rfl,
    ((c2_filter ⟨"b", "2", none⟩).2.2 rfl 0 []).trans rfl⟩

/-- C7: when the lines before position `pre.length` all decode and the next
line fails with cause `e`, the whole run halts with an error carrying the
1-based line number `pre.length + 1`; the lines after the failure (`post`,
arbitrary) are never consulted. -/
theorem c7_halt_on_first_malformed (pre : List Record) (e : String)
    (post : List (Except String Record)) :
    process (pre.map Except.ok ++ Except.error e :: post) =
      Except.error (pre.length + 1, e) := by
  have h := processFrom_first_error 0 pre e post
  simpa [process, Nat.zero_add] using h

/-- C4: an absent, `null`, or empty `negotiated_rates` array decodes (the
decoder is a total function on the wire shapes) to a record with
`avg_rate = none`, and an absent, `null`, or empty `negotiated_prices`
sub-array yields a group that contributes nothing when absorbed into any
accumulator. -/
theorem c4_empty_shapes (r : RawRecord) (p : JsonArr NegotiatedPrice) :
    ((r.negotiated_rates = JsonArr.absent ∨ r.negotiated_rates = JsonArr.null ∨
        r.negotiated_rates = JsonArr.arr []) →
      decodeRecord r = ⟨r.name, r.billing_code, none⟩) ∧
    ((p = JsonArr.absent ∨ p = JsonArr.null ∨ p = JsonArr.arr []) →
      ∀ acc : AccumulatedRate, acc.addRate (decodeGroup ⟨p⟩) = acc) := by
  constructor
  · rintro (h | h | h) <;>
      simp [decodeRecord, decodeAvg, h, JsonArr.elems, foldRates, AccumulatedRate.zero,
        AccumulatedRate.finish]
  · rintro (h | h | h) acc <;>
      simp [decodeGroup, RawGroup.leaves, h, JsonArr.elems, foldPrices,
        AccumulatedRate.addRate, AccumulatedRate.zero]

/-- C4 witness: a record with an absent `negotiated_rates` decodes with no
average, and an empty `negotiated_prices` group leaves a concrete
accumulator unchanged. -/
theorem c4_empty_shapes_witness :
    decodeRecord ⟨"a", "1", JsonArr.absent⟩ = ⟨"a", "1", none⟩ ∧
      AccumulatedRate.addRate ⟨5, 2⟩ (decodeGroup ⟨JsonArr.arr []⟩) = ⟨5, 2⟩ :=
  ⟨(c4_empty_shapes ⟨"a", "1", JsonArr.absent⟩ (JsonArr.arr [])).1 (Or.inl rfl),
    (c4_empty_shapes ⟨"a", "1", JsonArr.absent⟩ (JsonArr.arr [])).2
      (Or.inr (Or.inr rfl)) ⟨5, 2⟩⟩

/-- C5: one empty group next to one group with the single rate 10 averages
to exactly 10, and the final count is 1: the empty sub-group adds zero
weight, not a zero-valued observation. -/
theorem c5_empty_subgroup_zero_weight :
    decodeAvg (JsonArr.arr [⟨JsonArr.arr []⟩, ⟨JsonArr.arr [⟨10⟩]⟩]) = some 10 ∧
      (foldRates AccumulatedRate.zero [⟨JsonArr.arr []⟩, ⟨JsonArr.arr [⟨10⟩]⟩]).count = 1 := by
  refine ⟨?_, rfl⟩
  norm_num [decodeAvg, JsonArr.elems, foldRates, decodeGroup, foldPrices, RawGroup.leaves,
    AccumulatedRate.zero, AccumulatedRate.addRate, AccumulatedRate.addPrice,
    AccumulatedRate.finish]

/-- C6: any arrangement of the leaf rates 10, 20, 60 across groups — empty
groups included — decodes to the flattened mean `some 30`. -/
theorem c6_mean_flattened (gs : List RawGroup)
    (h : List.Perm (flatRates gs) [10, 20, 60]) :
    decodeAvg (JsonArr.arr gs) = some 30 := by
  have hs : (flatRates gs).sum = 90 := by rw [h.sum_eq]; norm_num
  have hl : (flatRates gs).length = 3 := h.length_eq
  simp only [decodeAvg, JsonArr.elems, foldRates_eq, hs, hl, AccumulatedRate.zero,
    AccumulatedRate.finish]
  norm_num

/-- C6 witness: the spec's scenario input — groups `[10]`, `[]`, `[20, 60]`
— decodes to `some 30`. -/
theorem c6_mean_flattened_witness :
    decodeAvg (JsonArr.arr
        [⟨JsonArr.arr [⟨10⟩]⟩, ⟨JsonArr.arr []⟩, ⟨JsonArr.arr [⟨20⟩, ⟨60⟩]⟩]) = some 30 :=
  c6_mean_flattened _ (List.Perm.refl _)

/-- C8: two group lists whose flattened leaf rates are permutations of one
another — reordered within or across groups — fold from `zero` to the same
final average. -/
theorem c8_order_invariance (gs₁ gs₂ : List RawGroup)
    (h : List.Perm (flatRates gs₁) (flatRates gs₂)) :
    (foldRates AccumulatedRate.zero gs₁).finish =
      (foldRates AccumulatedRate.zero gs₂).finish := by
  rw [foldRates_eq, foldRates_eq, h.sum_eq, h.length_eq]

/-- C8 witness: the rates 10, 20 in one group versus 20 then 10 split over
two groups give the same average. -/
theorem c8_order_invariance_witness :
    (foldRates AccumulatedRate.zero [⟨JsonArr.arr [⟨10⟩, ⟨20⟩]⟩]).finish =
      (foldRates AccumulatedRate.zero [⟨JsonArr.arr [⟨20⟩]⟩, ⟨JsonArr.arr [⟨10⟩]⟩]).finish :=
  c8_order_invariance _ _ (List.Perm.swap 20 10 [])
